import Mathlib

/-!
Shallow embedding of the Video-Highlight-AI backend (main.py, models.py,
ai_analyzer.py, video_processor.py) and proofs about its orchestration
pipeline.

Modelling conventions:
* Python floats become rationals; Python dicts become association lists
  whose insert keeps the position of an existing key (Python dict update
  semantics) and appends fresh keys at the end.
* The external capabilities (media processing, Gemini inference) are
  black-box, fallible collaborators; a run of the pipeline is
  parameterised by a record giving each capability call's outcome.
* Fallible Python code (raise / HTTPException) is modelled with Except.
* The filesystem is the list of paths that currently exist; guarded
  os.remove / open-for-write calls become total list operations.
-/

/-! ### Data model (models.py) -/

structure VideoMetadata where
  id : String
  title : String
  description : Option String := none
  original_filename : String
  upload_path : String
  file_type : String
  upload_date : String
  processing_status : String
  error_message : Option String := none
  duration : Option Rat := none
  frames : Option Int := none
  highlights_count : Option Nat := none
  content_plan_path : Option String := none
deriving DecidableEq

structure HighlightClip where
  id : String
  video_id : String
  title : String
  description : Option String := none
  start_time : Rat
  end_time : Rat
  clip_path : String
  subtitle_path : Option String := none
  thumbnail_path : Option String := none
deriving DecidableEq

structure ContentPost where
  clip_id : String
  title : String
  caption : String
  platform : String
  suggested_posting_date : Option String := none
  hashtags : List String := []
deriving DecidableEq

structure ContentPlan where
  video_id : String
  title : String
  generated_date : String
  posts : List ContentPost := []
deriving DecidableEq

structure ProcessingStatus where
  video_id : String
  status : String
deriving DecidableEq

/-! ### In-memory registries (main.py module-level dicts) and filesystem -/

def dbLookup {α : Type} (m : List (String × α)) (k : String) : Option α :=
  match m with
  | [] => none
  | (k', v) :: rest => if k' = k then some v else dbLookup rest k

def dbInsert {α : Type} (m : List (String × α)) (k : String) (v : α) :
    List (String × α) :=
  match m with
  | [] => [(k, v)]
  | (k', v') :: rest =>
    if k' = k then (k', v) :: rest else (k', v') :: dbInsert rest k v

def dbErase {α : Type} (m : List (String × α)) (k : String) :
    List (String × α) :=
  match m with
  | [] => []
  | p :: rest => if p.1 = k then dbErase rest k else p :: dbErase rest k

def addFile (files : List String) (p : String) : List String :=
  if files.contains p then files else files ++ [p]

def removeFile (files : List String) (p : String) : List String :=
  match files with
  | [] => []
  | q :: rest => if q = p then removeFile rest p else q :: removeFile rest p

def removeFileIfExists (files : List String) (p : String) : List String :=
  if files.contains p then removeFile files p else files

def removeOptFile (files : List String) (p : Option String) : List String :=
  match p with
  | some q => removeFileIfExists files q
  | none => files

structure AppState where
  videos_db : List (String × VideoMetadata)
  highlights_db : List (String × HighlightClip)
  content_plans_db : List (String × ContentPlan)
  processing_status_db : List (String × ProcessingStatus)
  files : List String
deriving DecidableEq

def ownedEntries (m : List (String × HighlightClip)) (vid : String) :
    List (String × HighlightClip) :=
  match m with
  | [] => []
  | p :: rest =>
    if p.2.video_id = vid then p :: ownedEntries rest vid
    else ownedEntries rest vid

/-! ### Lemmas about the registry operations -/

theorem dbLookup_dbInsert_self {α : Type} (m : List (String × α)) (k : String)
    (v : α) : dbLookup (dbInsert m k v) k = some v := by
  induction m with
  | nil => simp [dbInsert, dbLookup]
  | cons p rest ih =>
    by_cases h : p.1 = k
    · simp [dbInsert, dbLookup, h]
    · simp [dbInsert, dbLookup, h, ih]

theorem dbLookup_dbInsert_ne {α : Type} (m : List (String × α)) (k k' : String)
    (v : α) (h : k' ≠ k) : dbLookup (dbInsert m k v) k' = dbLookup m k' := by
  have h' : ¬ k = k' := fun hk => h hk.symm
  induction m with
  | nil => simp [dbInsert, dbLookup, h']
  | cons p rest ih =>
    by_cases hp : p.1 = k
    · have hp' : ¬ p.1 = k' := fun hk => h' (hp ▸ hk)
      simp [dbInsert, dbLookup, hp, hp', h']
    · by_cases hp' : p.1 = k'
      · simp [dbInsert, dbLookup, hp, hp', h]
      · simp [dbInsert, dbLookup, hp, hp', ih]

theorem dbLookup_dbErase_self {α : Type} (m : List (String × α)) (k : String) :
    dbLookup (dbErase m k) k = none := by
  induction m with
  | nil => simp [dbErase, dbLookup]
  | cons p rest ih =>
    by_cases h : p.1 = k
    · simp [dbErase, h, ih]
    · simp [dbErase, dbLookup, h, ih]

theorem dbLookup_dbErase_ne {α : Type} (m : List (String × α)) (k k' : String)
    (h : k' ≠ k) : dbLookup (dbErase m k) k' = dbLookup m k' := by
  have h' : ¬ k = k' := fun hk => h hk.symm
  induction m with
  | nil => simp [dbErase]
  | cons p rest ih =>
    by_cases hp : p.1 = k
    · have hp' : ¬ p.1 = k' := fun hk => h' (hp ▸ hk)
      simp [dbErase, dbLookup, hp, hp', h', ih]
    · simp [dbErase, dbLookup, hp, ih]

theorem mem_dbErase {α : Type} {m : List (String × α)} {k : String}
    {p : String × α} : p ∈ dbErase m k ↔ p ∈ m ∧ p.1 ≠ k := by
  induction m with
  | nil => simp [dbErase]
  | cons q rest ih =>
    by_cases hq : q.1 = k
    · constructor
      · intro hp
        rw [dbErase, if_pos hq] at hp
        rcases ih.1 hp with ⟨hm, hne⟩
        exact ⟨List.mem_cons_of_mem _ hm, hne⟩
      · rintro ⟨hm, hne⟩
        rw [dbErase, if_pos hq]
        rcases List.mem_cons.1 hm with rfl | hm'
        · exact absurd hq hne
        · exact ih.2 ⟨hm', hne⟩
    · constructor
      · intro hp
        rw [dbErase, if_neg hq] at hp
        rcases List.mem_cons.1 hp with rfl | hp'
        · exact ⟨List.mem_cons_self _ _, hq⟩
        · rcases ih.1 hp' with ⟨hm, hne⟩
          exact ⟨List.mem_cons_of_mem _ hm, hne⟩
      · rintro ⟨hm, hne⟩
        rw [dbErase, if_neg hq]
        rcases List.mem_cons.1 hm with rfl | hm'
        · exact List.mem_cons_self _ _
        · exact List.mem_cons_of_mem _ (ih.2 ⟨hm', hne⟩)

theorem mem_ownedEntries {m : List (String × HighlightClip)} {vid : String}
    {p : String × HighlightClip} :
    p ∈ ownedEntries m vid ↔ p ∈ m ∧ p.2.video_id = vid := by
  induction m with
  | nil => simp [ownedEntries]
  | cons q rest ih =>
    by_cases hq : q.2.video_id = vid
    · constructor
      · intro hp
        rw [ownedEntries, if_pos hq] at hp
        rcases List.mem_cons.1 hp with rfl | hp'
        · exact ⟨List.mem_cons_self _ _, hq⟩
        · rcases ih.1 hp' with ⟨hm, hv⟩
          exact ⟨List.mem_cons_of_mem _ hm, hv⟩
      · rintro ⟨hm, hv⟩
        rw [ownedEntries, if_pos hq]
        rcases List.mem_cons.1 hm with rfl | hm'
        · exact List.mem_cons_self _ _
        · exact List.mem_cons_of_mem _ (ih.2 ⟨hm', hv⟩)
    · constructor
      · intro hp
        rw [ownedEntries, if_neg hq] at hp
        rcases ih.1 hp with ⟨hm, hv⟩
        exact ⟨List.mem_cons_of_mem _ hm, hv⟩
      · rintro ⟨hm, hv⟩
        rw [ownedEntries, if_neg hq]
        rcases List.mem_cons.1 hm with rfl | hm'
        · exact absurd hv hq
        · exact ih.2 ⟨hm', hv⟩

theorem ownedEntries_eq_nil {m : List (String × HighlightClip)} {vid : String}
    (h : ∀ p ∈ m, p.2.video_id ≠ vid) : ownedEntries m vid = [] := by
  induction m with
  | nil => rfl
  | cons q rest ih =>
    rw [ownedEntries, if_neg (h q (List.mem_cons_self _ _))]
    exact ih (fun p hp => h p (List.mem_cons_of_mem _ hp))

/-! ### GeminiAIAnalyzer.generate_content_plan (ai_analyzer.py 208-335)

The Gemini call result is modelled after the parse attempt:
an Except-level error stands for the capability call itself raising,
ok none for a response that is not machine-parseable (the except branch
of the source), and ok (some items) for a parsed response whose
content_plan list is items (a missing content_plan key parses to []).
Each PlanItem field is optional, mirroring item.get with a default. -/

structure PlanItem where
  title : Option String := none
  caption : Option String := none
  platform : Option String := none
  suggested_posting_date : Option String := none
  hashtags : Option (List String) := none
deriving DecidableEq

inductive CapCall where
  | inference
deriving DecidableEq

/-- Python renders None inside an f-string as the text None. -/
def pyStr : Option String → String
  | some s => s
  | none => "None"

/-- One post of the parse-success loop body (ai_analyzer.py 292-309). -/
def postOfItem (dateAfterDays : Nat → String) (i : Nat) (h : HighlightClip)
    (item : PlanItem) : ContentPost :=
  { clip_id := h.id
    title := item.title.getD h.title
    caption := item.caption.getD "Check out this highlight!"
    platform := item.platform.getD "Instagram"
    suggested_posting_date :=
      some (item.suggested_posting_date.getD (dateAfterDays (i + 1)))
    hashtags := item.hashtags.getD ["video", "highlights", "content"] }

/-- Posts built from a parsed response: the source loop walks the plan
items by index and breaks once the index reaches the number of
highlights, so it pairs items with highlights positionally. -/
def parsedPostsFrom (dateAfterDays : Nat → String) :
    Nat → List PlanItem → List HighlightClip → List ContentPost
  | _, [], _ => []
  | _, _ :: _, [] => []
  | i, item :: items, h :: hs =>
    postOfItem dateAfterDays i h item ::
      parsedPostsFrom dateAfterDays (i + 1) items hs

def parsedPosts (dateAfterDays : Nat → String)
    (highlights : List HighlightClip) (items : List PlanItem) :
    List ContentPost :=
  parsedPostsFrom dateAfterDays 0 items highlights

/-- One post of the unparseable-response fallback loop (ai_analyzer.py 323-333). -/
def fallbackPost (dateAfterDays : Nat → String) (i : Nat) (h : HighlightClip) :
    ContentPost :=
  { clip_id := h.id
    title := "Highlight " ++ toString (i + 1) ++ ": " ++ h.title
    caption := "Check out this amazing highlight from our video! " ++
      pyStr h.description
    platform := if i % 2 = 0 then "Instagram" else "YouTube"
    suggested_posting_date := some (dateAfterDays (i + 1))
    hashtags := ["video", "highlights", "content", "part" ++ toString (i + 1)] }

def fallbackPostsFrom (dateAfterDays : Nat → String) :
    Nat → List HighlightClip → List ContentPost
  | _, [] => []
  | i, h :: hs =>
    fallbackPost dateAfterDays i h :: fallbackPostsFrom dateAfterDays (i + 1) hs

def fallbackPosts (dateAfterDays : Nat → String)
    (highlights : List HighlightClip) : List ContentPost :=
  fallbackPostsFrom dateAfterDays 0 highlights

/-- generate_content_plan. Raises ValueError on an empty highlight list
before the model is even constructed; otherwise performs the inference
call (recorded in the returned call list) and shapes the response.
The second component records which capability calls were made. -/
def generate_content_plan (nowIso : String) (dateAfterDays : Nat → String)
    (highlights : List HighlightClip)
    (capability : Except String (Option (List PlanItem))) :
    Except String ContentPlan × List CapCall :=
  match highlights with
  | [] => (.error "No highlights provided for content plan generation", [])
  | h0 :: _ =>
    match capability with
    | .error e => (.error e, [CapCall.inference])
    | .ok (some items) =>
      (.ok { video_id := h0.video_id
             title := "Content Plan for " ++ toString highlights.length ++
               " Highlights"
             generated_date := nowIso
             posts := parsedPosts dateAfterDays highlights items },
       [CapCall.inference])
    | .ok none =>
      (.ok { video_id := h0.video_id
             title := "Content Plan for " ++ toString highlights.length ++
               " Highlights"
             generated_date := nowIso
             posts := fallbackPosts dateAfterDays highlights },
       [CapCall.inference])

/-! ### The background pipeline (main.py process_video, 54-163) -/

/-- One item of the highlighted_moments list returned by analyze_video;
every field is read with highlight.get and a default. -/
structure RawHighlight where
  start_time : Option Rat := none
  end_time : Option Rat := none
  title : Option String := none
  description : Option String := none
deriving DecidableEq

/-- A call made to the media capability during extraction. -/
inductive MediaCall where
  | clip (start_time end_time : Rat) (path : String)
  | thumb (time : Rat) (path : String)
deriving DecidableEq

/-- Outcomes of every external capability call a single pipeline run can
make, plus the identifier and clock sources the run draws on. -/
structure Capabilities where
  metadata : Except String (Rat × Int)
  analysis : Except String (List RawHighlight)
  clipExtract : Nat → Except String Unit
  thumbExtract : Nat → Except String Unit
  subtitles : Nat → Except String String
  contentPlanResponse : Except String (Option (List PlanItem))
  hid : Nat → String
  nowIso : String
  dateAfterDays : Nat → String

def clip_path_for (vid : String) (i : Nat) : String :=
  "clips/" ++ vid ++ "_highlight_" ++ toString i ++ ".mp4"

def thumbnail_path_for (hid : String) : String :=
  "thumbnails/" ++ hid ++ ".jpg"

def subtitle_path_for (hid : String) : String :=
  "subtitles/" ++ hid ++ ".vtt"

/-- The HighlightClip object built at main.py 117-127: start and end
times are stored exactly as read from the inference item (default 0);
no clamping to the source duration is applied anywhere. -/
def mkHighlightClip (caps : Capabilities) (vid : String) (i : Nat)
    (r : RawHighlight) : HighlightClip :=
  { id := caps.hid i
    video_id := vid
    title := r.title.getD ("Highlight " ++ toString (i + 1))
    description := some (r.description.getD "")
    start_time := r.start_time.getD 0
    end_time := r.end_time.getD 0
    clip_path := clip_path_for vid i
    subtitle_path := some (subtitle_path_for (caps.hid i))
    thumbnail_path := some (thumbnail_path_for (caps.hid i)) }

/-- The two media-capability calls issued for one candidate interval:
the clip cut over the raw interval and the thumbnail at
start_time + (end_time - start_time) / 2 (main.py 98 and 104-105). -/
def plannedCalls (caps : Capabilities) (vid : String) (i : Nat)
    (r : RawHighlight) : List MediaCall :=
  [MediaCall.clip (r.start_time.getD 0) (r.end_time.getD 0) (clip_path_for vid i),
   MediaCall.thumb (r.start_time.getD 0 +
     (r.end_time.getD 0 - r.start_time.getD 0) / 2)
     (thumbnail_path_for (caps.hid i))]

def addFileSt (st : AppState) (p : String) : AppState :=
  { st with files := addFile st.files p }

/-- The per-highlight extraction loop (main.py 88-130).  An exception
anywhere in the loop aborts the whole job; the error carries the
partially mutated state, as the Python exception does. -/
def extractLoop (caps : Capabilities) (vid : String) :
    Nat → List RawHighlight → AppState → List HighlightClip → List MediaCall →
    Except (String × AppState) (AppState × List HighlightClip × List MediaCall)
  | _, [], st, clips, calls => .ok (st, clips, calls)
  | i, r :: rest, st, clips, calls =>
    let highlight_id := caps.hid i
    let cpath := clip_path_for vid i
    let s := r.start_time.getD 0
    let e := r.end_time.getD 0
    match caps.clipExtract i with
    | .error msg => .error (msg, st)
    | .ok _ =>
      let st1 := addFileSt st cpath
      let calls1 := calls ++ [MediaCall.clip s e cpath]
      let tpath := thumbnail_path_for highlight_id
      match caps.thumbExtract i with
      | .error msg => .error (msg, st1)
      | .ok _ =>
        let st2 := addFileSt st1 tpath
        let calls2 := calls1 ++ [MediaCall.thumb (s + (e - s) / 2) tpath]
        let spath := subtitle_path_for highlight_id
        match caps.subtitles i with
        | .error msg => .error (msg, st2)
        | .ok _subs =>
          let st3 := addFileSt st2 spath
          let hc := mkHighlightClip caps vid i r
          let st4 := { st3 with
            highlights_db := dbInsert st3.highlights_db highlight_id hc }
          extractLoop caps vid (i + 1) rest st4 (clips ++ [hc]) calls2

def psrWrite (st : AppState) (vid s : String) : AppState :=
  { st with processing_status_db :=
      dbInsert st.processing_status_db vid ⟨vid, s⟩ }

def jobStatus (st : AppState) (vid : String) : Option String :=
  (dbLookup st.videos_db vid).map (fun v => v.processing_status)

/-- The pair observed at a processing-status write: the stage tag being
written and the Job's own status field at that same moment. -/
def obs (st : AppState) (vid s : String) : String × Option String :=
  (s, jobStatus st vid)

def updateJob (st : AppState) (vid : String)
    (f : VideoMetadata → VideoMetadata) : AppState :=
  match dbLookup st.videos_db vid with
  | none => st
  | some v => { st with videos_db := dbInsert st.videos_db vid (f v) }

structure PVResult where
  state : AppState
  trace : List (String × Option String)
deriving DecidableEq

/-- Job field writes of main.py 66-68. -/
def jobSetMeta (dur : Rat) (fr : Int) (v : VideoMetadata) : VideoMetadata :=
  { v with duration := some dur, frames := some fr,
           processing_status := "PROCESSING" }

/-- Job field writes of main.py 157-158. -/
def jobSetError (msg : String) (v : VideoMetadata) : VideoMetadata :=
  { v with processing_status := "ERROR", error_message := some msg }

/-- Job field writes of main.py 145-147. -/
def jobSetDone (cp_path : String) (n : Nat) (v : VideoMetadata) :
    VideoMetadata :=
  { v with content_plan_path := some cp_path, highlights_count := some n,
           processing_status := "COMPLETED" }

/-- The except handler of process_video (main.py 155-163): record the
message and ERROR on the Job, then write the ERROR status record. -/
def failJob (st : AppState) (vid msg : String)
    (tr : List (String × Option String)) : PVResult :=
  let st1 := updateJob st vid (jobSetError msg)
  ⟨psrWrite st1 vid "ERROR", tr ++ [obs st1 vid "ERROR"]⟩

/-- process_video (main.py 54-163), parameterised by the capability
outcomes.  The trace lists, in order, every write to the processing
status registry paired with the Job status visible at that write. -/
def process_video (caps : Capabilities) (vid : String) (st0 : AppState) :
    PVResult :=
  let st1 := psrWrite st0 vid "PROCESSING"
  let tr1 := [obs st0 vid "PROCESSING"]
  match caps.metadata with
  | .error e => failJob st1 vid e tr1
  | .ok (dur, fr) =>
    let st2 := updateJob st1 vid (jobSetMeta dur fr)
    let st3 := psrWrite st2 vid "ANALYZING"
    let tr2 := tr1 ++ [obs st2 vid "ANALYZING"]
    match caps.analysis with
    | .error e => failJob st3 vid e tr2
    | .ok raws =>
      let st4 := psrWrite st3 vid "EXTRACTING_HIGHLIGHTS"
      let tr3 := tr2 ++ [obs st3 vid "EXTRACTING_HIGHLIGHTS"]
      match extractLoop caps vid 0 raws st4 [] [] with
      | .error (e, stp) => failJob stp vid e tr3
      | .ok (st5, clips, _calls) =>
        let st6 := psrWrite st5 vid "GENERATING_CONTENT_PLAN"
        let tr4 := tr3 ++ [obs st5 vid "GENERATING_CONTENT_PLAN"]
        match (generate_content_plan caps.nowIso caps.dateAfterDays clips
            caps.contentPlanResponse).1 with
        | .error e => failJob st6 vid e tr4
        | .ok plan =>
          let st7 := { st6 with
            content_plans_db := dbInsert st6.content_plans_db vid plan }
          let cp_path := "content_plans/" ++ vid ++ "_content_plan.json"
          let st8 := updateJob st7 vid (jobSetDone cp_path clips.length)
          ⟨psrWrite st8 vid "COMPLETED", tr4 ++ [obs st8 vid "COMPLETED"]⟩

/-! ### HTTP handlers (main.py 165-291) -/

def allowed_types : List String :=
  ["video/mp4", "video/quicktime", "video/x-msvideo"]

/-- upload_video (main.py 165-212).  The media-type check runs before
the identifier is used, the file is saved, or any registry is written;
on rejection the state is returned untouched. -/
def upload_video (st : AppState) (video_id filename title : String)
    (description : Option String) (content_type nowIso : String) :
    Except String VideoMetadata × AppState :=
  if allowed_types.contains content_type then
    let file_path := "uploads/" ++ video_id ++ "_" ++ filename
    let st1 := addFileSt st file_path
    let vm : VideoMetadata :=
      { id := video_id
        title := title
        description := description
        original_filename := filename
        upload_path := file_path
        file_type := content_type
        upload_date := nowIso
        processing_status := "PROCESSING"
        error_message := none
        duration := none
        frames := none
        highlights_count := none
        content_plan_path := none }
    (.ok vm, { st1 with videos_db := dbInsert st1.videos_db video_id vm })
  else
    (.error "Invalid file type. Only MP4, MOV, and AVI files are supported.",
     st)

def get_processing_status (st : AppState) (vid : String) :
    Except String ProcessingStatus :=
  match dbLookup st.processing_status_db vid with
  | none => .error "Video not found"
  | some r => .ok r

def get_video (st : AppState) (vid : String) : Except String VideoMetadata :=
  match dbLookup st.videos_db vid with
  | none => .error "Video not found"
  | some v => .ok v

def get_highlights (st : AppState) (vid : String) :
    Except String (List HighlightClip) :=
  match dbLookup st.videos_db vid with
  | none => .error "Video not found"
  | some _ => .ok ((ownedEntries st.highlights_db vid).map Prod.snd)

def get_content_plan (st : AppState) (vid : String) :
    Except String ContentPlan :=
  match dbLookup st.videos_db vid with
  | none => .error "Video not found"
  | some _ =>
    match dbLookup st.content_plans_db vid with
    | none => .error "Content plan not found"
    | some p => .ok p

/-- The per-highlight body of delete_video (main.py 264-279): remove the
clip, thumbnail and subtitle files when they exist, then delete the
registry entry keyed by the highlight's id when it is still present. -/
def deleteHighlightsLoop (hs : List HighlightClip) (st : AppState) : AppState :=
  match hs with
  | [] => st
  | h :: rest =>
    let f1 := removeFileIfExists st.files h.clip_path
    let f2 := removeOptFile f1 h.thumbnail_path
    let f3 := removeOptFile f2 h.subtitle_path
    let hdb :=
      if (dbLookup st.highlights_db h.id).isSome then
        dbErase st.highlights_db h.id
      else st.highlights_db
    deleteHighlightsLoop rest { st with files := f3, highlights_db := hdb }

/-- delete_video (main.py 249-291). -/
def delete_video (st : AppState) (vid : String) : Except String AppState :=
  match dbLookup st.videos_db vid with
  | none => .error "Video not found"
  | some video =>
    let st1 := { st with files := removeFileIfExists st.files video.upload_path }
    let matched := (ownedEntries st1.highlights_db vid).map Prod.snd
    let st2 := deleteHighlightsLoop matched st1
    let st3 :=
      if (dbLookup st2.content_plans_db vid).isSome then
        { st2 with content_plans_db := dbErase st2.content_plans_db vid }
      else st2
    let st4 := { st3 with videos_db := dbErase st3.videos_db vid }
    let st5 :=
      if (dbLookup st4.processing_status_db vid).isSome then
        { st4 with
          processing_status_db := dbErase st4.processing_status_db vid }
      else st4
    .ok st5

/-! ### Structural lemmas about the pipeline -/

theorem fallbackPostsFrom_length (d : Nat → String) :
    ∀ (i : Nat) (hs : List HighlightClip),
      (fallbackPostsFrom d i hs).length = hs.length
  | _, [] => rfl
  | i, _ :: hs => by
    simp [fallbackPostsFrom, fallbackPostsFrom_length d (i + 1) hs]

theorem fallbackPostsFrom_clip_id (d : Nat → String) :
    ∀ (i : Nat) (hs : List HighlightClip),
      (fallbackPostsFrom d i hs).map (fun p => p.clip_id) =
        hs.map (fun h => h.id)
  | _, [] => rfl
  | i, h :: hs => by
    simp [fallbackPostsFrom, fallbackPost,
      fallbackPostsFrom_clip_id d (i + 1) hs]

theorem parsedPostsFrom_length (d : Nat → String) :
    ∀ (i : Nat) (items : List PlanItem) (hs : List HighlightClip),
      (parsedPostsFrom d i items hs).length = min items.length hs.length
  | _, [], _ => by simp [parsedPostsFrom]
  | _, _ :: _, [] => by simp [parsedPostsFrom]
  | i, _ :: items, _ :: hs => by
    simp [parsedPostsFrom, parsedPostsFrom_length d (i + 1) items hs,
      Nat.succ_min_succ]

/-- The highlight objects the extraction loop would register for a run
of raw intervals starting at index i. -/
def builtClips (caps : Capabilities) (vid : String) :
    Nat → List RawHighlight → List HighlightClip
  | _, [] => []
  | i, r :: rest => mkHighlightClip caps vid i r :: builtClips caps vid (i + 1) rest

/-- The media-capability calls the extraction loop would issue. -/
def builtCalls (caps : Capabilities) (vid : String) :
    Nat → List RawHighlight → List MediaCall
  | _, [] => []
  | i, r :: rest => plannedCalls caps vid i r ++ builtCalls caps vid (i + 1) rest

theorem extractLoop_ok_spec (caps : Capabilities) (vid : String) :
    ∀ (raws : List RawHighlight) (i : Nat) (st : AppState)
      (clips : List HighlightClip) (calls : List MediaCall)
      (st' : AppState) (clips' : List HighlightClip) (calls' : List MediaCall),
      extractLoop caps vid i raws st clips calls = .ok (st', clips', calls') →
      clips' = clips ++ builtClips caps vid i raws ∧
      calls' = calls ++ builtCalls caps vid i raws ∧
      st'.videos_db = st.videos_db ∧
      st'.content_plans_db = st.content_plans_db ∧
      st'.processing_status_db = st.processing_status_db := by
  intro raws
  induction raws with
  | nil =>
    intro i st clips calls st' clips' calls' h
    rw [extractLoop] at h
    injection h with h
    injection h with h1 h2
    injection h2 with h2 h3
    subst h1; subst h2; subst h3
    simp [builtClips, builtCalls]
  | cons r rest ih =>
    intro i st clips calls st' clips' calls' h
    rw [extractLoop] at h
    cases hc : caps.clipExtract i with
    | error msg => rw [hc] at h; exact absurd h (by simp)
    | ok u =>
      rw [hc] at h
      cases ht : caps.thumbExtract i with
      | error msg => rw [ht] at h; exact absurd h (by simp)
      | ok u2 =>
        rw [ht] at h
        cases hs : caps.subtitles i with
        | error msg => rw [hs] at h; exact absurd h (by simp)
        | ok subs =>
          rw [hs] at h
          rcases ih (i + 1) _ _ _ st' clips' calls' h with
            ⟨hclips, hcalls, hv, hcp, hps⟩
          refine ⟨?_, ?_, ?_, ?_, ?_⟩
          · rw [hclips]
            simp [builtClips, addFileSt]
          · rw [hcalls]
            simp [builtCalls, plannedCalls, addFileSt]
          · rw [hv]; rfl
          · rw [hcp]; rfl
          · rw [hps]; rfl

theorem extractLoop_err_spec (caps : Capabilities) (vid : String) :
    ∀ (raws : List RawHighlight) (i : Nat) (st : AppState)
      (clips : List HighlightClip) (calls : List MediaCall)
      (msg : String) (stp : AppState),
      extractLoop caps vid i raws st clips calls = .error (msg, stp) →
      stp.videos_db = st.videos_db ∧
      stp.content_plans_db = st.content_plans_db ∧
      stp.processing_status_db = st.processing_status_db := by
  intro raws
  induction raws with
  | nil =>
    intro i st clips calls msg stp h
    rw [extractLoop] at h
    exact absurd h (by simp)
  | cons r rest ih =>
    intro i st clips calls msg stp h
    rw [extractLoop] at h
    cases hc : caps.clipExtract i with
    | error m =>
      rw [hc] at h
      injection h with h
      injection h with h1 h2
      subst h2
      exact ⟨rfl, rfl, rfl⟩
    | ok u =>
      rw [hc] at h
      cases ht : caps.thumbExtract i with
      | error m =>
        rw [ht] at h
        injection h with h
        injection h with h1 h2
        subst h2
        exact ⟨rfl, rfl, rfl⟩
      | ok u2 =>
        rw [ht] at h
        cases hsu : caps.subtitles i with
        | error m =>
          rw [hsu] at h
          injection h with h
          injection h with h1 h2
          subst h2
          exact ⟨rfl, rfl, rfl⟩
        | ok subs =>
          rw [hsu] at h
          have hrec := ih (i + 1) _ _ _ msg stp h
          exact ⟨hrec.1, hrec.2.1, hrec.2.2⟩

theorem deleteHighlightsLoop_dbs :
    ∀ (hs : List HighlightClip) (st : AppState),
      (deleteHighlightsLoop hs st).videos_db = st.videos_db ∧
      (deleteHighlightsLoop hs st).content_plans_db = st.content_plans_db ∧
      (deleteHighlightsLoop hs st).processing_status_db =
        st.processing_status_db
  | [], _ => ⟨rfl, rfl, rfl⟩
  | h :: rest, st => by
    rw [deleteHighlightsLoop]
    exact deleteHighlightsLoop_dbs rest _

theorem updateJob_lookup_self {st : AppState} {vid : String}
    {f : VideoMetadata → VideoMetadata} {v : VideoMetadata}
    (h : dbLookup st.videos_db vid = some v) :
    dbLookup (updateJob st vid f).videos_db vid = some (f v) := by
  simp [updateJob, h, dbLookup_dbInsert_self]

theorem updateJob_psr (st : AppState) (vid : String)
    (f : VideoMetadata → VideoMetadata) :
    (updateJob st vid f).processing_status_db = st.processing_status_db := by
  unfold updateJob
  cases dbLookup st.videos_db vid <;> rfl

theorem jobStatus_updateJob_self {st : AppState} {vid : String}
    {f : VideoMetadata → VideoMetadata} {v : VideoMetadata}
    (h : dbLookup st.videos_db vid = some v) :
    jobStatus (updateJob st vid f) vid = some (f v).processing_status := by
  simp [jobStatus, updateJob_lookup_self h]

theorem jobStatus_psrWrite (st : AppState) (vid s v2 : String) :
    jobStatus (psrWrite st vid s) v2 = jobStatus st v2 := rfl

/-! ### Concrete fixtures used by witnesses and counterexamples -/

def vm0 : VideoMetadata :=
  { id := "v1"
    title := "Demo"
    description := none
    original_filename := "f.mp4"
    upload_path := "uploads/v1_f.mp4"
    file_type := "video/mp4"
    upload_date := "2026-10-01T00:00:00"
    processing_status := "PROCESSING"
    error_message := none
    duration := none
    frames := none
    highlights_count := none
    content_plan_path := none }

def st0 : AppState :=
  { videos_db := [("v1", vm0)]
    highlights_db := []
    content_plans_db := []
    processing_status_db := []
    files := ["uploads/v1_f.mp4"] }

/-- A 30 second source for which the inference capability reports an
interval running past the end of the video. -/
def demoRaw : RawHighlight :=
  { start_time := some 25
    end_time := some 40
    title := some "Peak"
    description := some "The best moment" }

def demoCaps : Capabilities :=
  { metadata := .ok (30, 900)
    analysis := .ok [demoRaw]
    clipExtract := fun _ => .ok ()
    thumbExtract := fun _ => .ok ()
    subtitles := fun _ => .ok "WEBVTT"
    contentPlanResponse := .ok none
    hid := fun i => "h" ++ toString i
    nowIso := "2026-10-01T12:00:00"
    dateAfterDays := fun d => "2026-10-" ++ toString (1 + d) }

def demoRun : PVResult := process_video demoCaps "v1" st0

def demoExtract : AppState × List HighlightClip × List MediaCall :=
  (extractLoop demoCaps "v1" 0 [demoRaw] st0 [] []).toOption.getD
    (st0, [], [])

/-! ### More helper lemmas for the claims -/

def thumbTime : MediaCall → Option Rat
  | MediaCall.thumb t _ => some t
  | MediaCall.clip _ _ _ => none

def traceStatuses (r : PVResult) : List String := r.trace.map Prod.fst

theorem builtClips_times (caps : Capabilities) (vid : String) :
    ∀ (i : Nat) (raws : List RawHighlight),
      (builtClips caps vid i raws).map (fun hc => hc.end_time) =
        raws.map (fun r => r.end_time.getD 0) ∧
      (builtClips caps vid i raws).map (fun hc => hc.start_time) =
        raws.map (fun r => r.start_time.getD 0)
  | _, [] => ⟨rfl, rfl⟩
  | i, r :: rest => by
    have ih := builtClips_times caps vid (i + 1) rest
    simp [builtClips, mkHighlightClip, ih.1, ih.2]

theorem builtCalls_thumb_times (caps : Capabilities) (vid : String) :
    ∀ (i : Nat) (raws : List RawHighlight),
      (builtCalls caps vid i raws).filterMap thumbTime =
        raws.map (fun r => r.start_time.getD 0 +
          (r.end_time.getD 0 - r.start_time.getD 0) / 2)
  | _, [] => rfl
  | i, r :: rest => by
    have ih := builtCalls_thumb_times caps vid (i + 1) rest
    simp [builtCalls, plannedCalls, thumbTime, ih]

theorem failJob_psr (st : AppState) (vid msg : String)
    (tr : List (String × Option String)) :
    dbLookup (failJob st vid msg tr).state.processing_status_db vid =
      some ⟨vid, "ERROR"⟩ := by
  simp [failJob, psrWrite, dbLookup_dbInsert_self]

theorem failJob_jobStatus {st : AppState} {vid : String} {v : VideoMetadata}
    (h : dbLookup st.videos_db vid = some v) (msg : String)
    (tr : List (String × Option String)) :
    jobStatus (failJob st vid msg tr).state vid = some "ERROR" := by
  simp [failJob, jobSetError, jobStatus_psrWrite, jobStatus_updateJob_self h]

theorem failJob_trace {st : AppState} {vid : String} {v : VideoMetadata}
    (h : dbLookup st.videos_db vid = some v) (msg : String)
    (tr : List (String × Option String)) :
    (failJob st vid msg tr).trace = tr ++ [("ERROR", some "ERROR")] := by
  simp [failJob, jobSetError, obs, jobStatus_updateJob_self h]

theorem failJob_traceStatuses (st : AppState) (vid msg : String)
    (tr : List (String × Option String)) :
    traceStatuses (failJob st vid msg tr) = tr.map Prod.fst ++ ["ERROR"] := by
  simp [failJob, traceStatuses, obs]

theorem dbLookup_eq_none {α : Type} :
    ∀ {m : List (String × α)} {k : String}, dbLookup m k = none →
      ∀ p ∈ m, p.1 ≠ k := by
  intro m
  induction m with
  | nil => intro k _ p hp; cases hp
  | cons q rest ih =>
    intro k h p hp
    rw [dbLookup] at h
    by_cases hq : q.1 = k
    · simp [hq] at h
    · rw [if_neg hq] at h
      rcases List.mem_cons.1 hp with rfl | hp'
      · exact hq
      · exact ih h p hp'

theorem nodup_keys_inj {α : Type} :
    ∀ {m : List (String × α)}, (m.map Prod.fst).Nodup →
      ∀ {p q : String × α}, p ∈ m → q ∈ m → p.1 = q.1 → p = q := by
  intro m
  induction m with
  | nil => intro _ p q hp; cases hp
  | cons a rest ih =>
    intro hnodup p q hp hq h
    rw [List.map_cons, List.nodup_cons] at hnodup
    rcases List.mem_cons.1 hp with rfl | hp' <;>
      rcases List.mem_cons.1 hq with rfl | hq'
    · rfl
    · exact absurd (h ▸ List.mem_map_of_mem Prod.fst hq') hnodup.1
    · exact absurd (h ▸ List.mem_map_of_mem Prod.fst hp') (by
        intro hc; exact hnodup.1 hc)
    · exact ih hnodup.2 hp' hq' h

theorem ownedEntries_dbErase (m : List (String × HighlightClip)) (k vid' : String)
    (h : ∀ p ∈ m, p.1 = k → p.2.video_id ≠ vid') :
    ownedEntries (dbErase m k) vid' = ownedEntries m vid' := by
  induction m with
  | nil => rfl
  | cons q rest ih =>
    have hrest : ∀ p ∈ rest, p.1 = k → p.2.video_id ≠ vid' :=
      fun p hp => h p (List.mem_cons_of_mem _ hp)
    by_cases hq : q.1 = k
    · have hv : ¬ q.2.video_id = vid' := h q (List.mem_cons_self _ _) hq
      rw [dbErase, if_pos hq, ownedEntries, if_neg hv]
      exact ih hrest
    · rw [dbErase, if_neg hq]
      by_cases hv : q.2.video_id = vid'
      · rw [ownedEntries, if_pos hv, ownedEntries, if_pos hv, ih hrest]
      · rw [ownedEntries, if_neg hv, ownedEntries, if_neg hv, ih hrest]

theorem deleteHighlightsLoop_removes (vid : String) :
    ∀ (hs : List HighlightClip) (st : AppState),
      (∀ p ∈ st.highlights_db, p.2.video_id = vid →
        p.2 ∈ hs ∧ p.1 = p.2.id) →
      ownedEntries (deleteHighlightsLoop hs st).highlights_db vid = [] := by
  intro hs
  induction hs with
  | nil =>
    intro st hinv
    rw [deleteHighlightsLoop]
    exact ownedEntries_eq_nil (fun p hp hvid => by
      rcases hinv p hp hvid with ⟨hmem, -⟩
      cases hmem)
  | cons h rest ih =>
    intro st hinv
    rw [deleteHighlightsLoop]
    apply ih
    intro p hp hvid
    by_cases hg : (dbLookup st.highlights_db h.id).isSome
    · rw [if_pos hg] at hp
      rcases mem_dbErase.1 hp with ⟨hpm, hpk⟩
      rcases hinv p hpm hvid with ⟨hmem, hkey⟩
      rcases List.mem_cons.1 hmem with heq | hmem'
      · exact absurd (hkey.trans (congrArg HighlightClip.id heq)) hpk
      · exact ⟨hmem', hkey⟩
    · rw [if_neg hg] at hp
      rcases hinv p hp hvid with ⟨hmem, hkey⟩
      rcases List.mem_cons.1 hmem with heq | hmem'
      · have hnone : dbLookup st.highlights_db h.id = none := by
          cases hd : dbLookup st.highlights_db h.id with
          | none => rfl
          | some x => rw [hd] at hg; exact absurd rfl hg
        have := dbLookup_eq_none hnone p hp
        exact absurd (hkey.trans (congrArg HighlightClip.id heq)) this
      · exact ⟨hmem', hkey⟩

theorem deleteHighlightsLoop_frame (vid vid' : String) (hne : vid' ≠ vid) :
    ∀ (hs : List HighlightClip) (st : AppState),
      (∀ h ∈ hs, ∀ p ∈ st.highlights_db, p.1 = h.id → p.2.video_id = vid) →
      ownedEntries (deleteHighlightsLoop hs st).highlights_db vid' =
        ownedEntries st.highlights_db vid' := by
  intro hs
  induction hs with
  | nil => intro st _; rfl
  | cons h rest ih =>
    intro st hinv
    rw [deleteHighlightsLoop]
    have hstep :
        ∀ (hdb : List (String × HighlightClip)),
          (hdb = dbErase st.highlights_db h.id ∨ hdb = st.highlights_db) →
          (∀ p ∈ hdb, p ∈ st.highlights_db) := by
      rintro hdb (rfl | rfl)
      · exact fun p hp => (mem_dbErase.1 hp).1
      · exact fun p hp => hp
    by_cases hg : (dbLookup st.highlights_db h.id).isSome
    · rw [if_pos hg]
      have hsub : ∀ p ∈ dbErase st.highlights_db h.id,
          p ∈ st.highlights_db := hstep _ (Or.inl rfl)
      have h1 : ownedEntries (dbErase st.highlights_db h.id) vid' =
          ownedEntries st.highlights_db vid' := by
        apply ownedEntries_dbErase
        intro p hp hpk hpv
        have := hinv h (List.mem_cons_self _ _) p hp hpk
        exact hne ((hpv ▸ this) : vid' = vid)
      have h2 := ih { st with
          files := removeOptFile (removeOptFile
            (removeFileIfExists st.files h.clip_path) h.thumbnail_path)
            h.subtitle_path,
          highlights_db := dbErase st.highlights_db h.id }
        (fun h' hh' p hp hpk =>
          hinv h' (List.mem_cons_of_mem _ hh') p (hsub p hp) hpk)
      exact h2.trans h1
    · rw [if_neg hg]
      exact ih { st with
          files := removeOptFile (removeOptFile
            (removeFileIfExists st.files h.clip_path) h.thumbnail_path)
            h.subtitle_path,
          highlights_db := st.highlights_db }
        (fun h' hh' p hp hpk =>
          hinv h' (List.mem_cons_of_mem _ hh') p hp hpk)

/-! ### Further fixtures -/

def stEmpty : AppState :=
  { videos_db := []
    highlights_db := []
    content_plans_db := []
    processing_status_db := []
    files := [] }

def hcA : HighlightClip :=
  { id := "hA"
    video_id := "v1"
    title := "A"
    description := some "first"
    start_time := 0
    end_time := 5
    clip_path := "clips/v1_highlight_0.mp4"
    subtitle_path := none
    thumbnail_path := none }

def hcB : HighlightClip :=
  { id := "hB"
    video_id := "v1"
    title := "B"
    description := some "second"
    start_time := 1
    end_time := 2
    clip_path := "clips/v1_highlight_0.mp4"
    subtitle_path := some "subtitles/hB.vtt"
    thumbnail_path := some "thumbnails/hB.jpg" }

def stFull : AppState :=
  { videos_db := [("v1", vm0)]
    highlights_db := [("hB", hcB)]
    content_plans_db :=
      [("v1", { video_id := "v1", title := "plan", generated_date := "g",
                posts := [] })]
    processing_status_db := [("v1", ⟨"v1", "COMPLETED"⟩)]
    files := ["uploads/v1_f.mp4", "clips/v1_highlight_0.mp4",
              "thumbnails/hB.jpg", "subtitles/hB.vtt"] }

def stFullDel : AppState := (delete_video stFull "v1").toOption.getD stFull

def capsMetaFail : Capabilities :=
  { demoCaps with metadata := .error "unreadable source" }

def capsAnalysisFail : Capabilities :=
  { demoCaps with analysis := .error "inference raised" }

def capsClipFail : Capabilities :=
  { demoCaps with clipExtract := fun _ => .error "clip cut failed" }

def capsPlanFail : Capabilities :=
  { demoCaps with contentPlanResponse := .error "inference raised" }

def capsEmptyAnalysis : Capabilities :=
  { demoCaps with analysis := .ok [] }

def upDemo : Except String VideoMetadata × AppState :=
  upload_video stEmpty "v9" "clipsource.mp4" "T" none "video/mp4"
    "2026-10-01T00:00:00"

def upVm : VideoMetadata := upDemo.1.toOption.getD vm0

/-! ### Claim C1 -/

/-- C1, counterexample.  The spec claims that a Highlight whose inferred
end_time exceeds the source duration is stored with end_time clamped to
the duration.  In a concrete run where the inference capability returns
the interval (25, 40) for a 30 second source, the registered Highlight
h0 keeps end_time 40, which exceeds the recorded duration 30, so the
claimed invariant end_time less-or-equal duration fails. -/
theorem c1_end_time_not_clamped_cex :
    (dbLookup demoRun.state.videos_db "v1").bind (fun v => v.duration) =
      some 30 ∧
    (dbLookup demoRun.state.highlights_db "h0").map (fun h => h.end_time) =
      some 40 ∧
    ¬ ((40 : Rat) ≤ 30) := by
  refine ⟨rfl, rfl, by norm_num⟩

/-- C1, amended.  The extraction stage applies no clamping at all: every
Highlight registered by a successful run of the extraction loop records
exactly the start_time and end_time returned by the inference capability
(with 0 substituted for a missing field), so end_time may exceed the
source duration. -/
theorem c1_recorded_times_unclamped (caps : Capabilities) (vid : String)
    (raws : List RawHighlight) (i : Nat) (st st' : AppState)
    (clips clips' : List HighlightClip) (calls calls' : List MediaCall)
    (h : extractLoop caps vid i raws st clips calls = .ok (st', clips', calls')) :
    clips'.map (fun hc => hc.end_time) =
      clips.map (fun hc => hc.end_time) ++
        raws.map (fun r => r.end_time.getD 0) ∧
    clips'.map (fun hc => hc.start_time) =
      clips.map (fun hc => hc.start_time) ++
        raws.map (fun r => r.start_time.getD 0) := by
  rcases extractLoop_ok_spec caps vid raws i st clips calls st' clips' calls' h
    with ⟨hclips, -, -, -, -⟩
  subst hclips
  have ht := builtClips_times caps vid i raws
  simp [ht.1, ht.2]

/-- C1 witness: the amended statement evaluated on the concrete demo run. -/
theorem c1_recorded_times_unclamped_witness :
    demoExtract.2.1.map (fun hc => hc.end_time) =
      ([] : List HighlightClip).map (fun hc => hc.end_time) ++
        [demoRaw].map (fun r => r.end_time.getD 0) ∧
    demoExtract.2.1.map (fun hc => hc.start_time) =
      ([] : List HighlightClip).map (fun hc => hc.start_time) ++
        [demoRaw].map (fun r => r.start_time.getD 0) :=
  c1_recorded_times_unclamped demoCaps "v1" [demoRaw] 0 st0 demoExtract.1
    [] demoExtract.2.1 [] demoExtract.2.2 rfl

/-! ### Claim C6 -/

/-- C6, counterexample.  The spec claims the thumbnail is taken at the
midpoint of the clamped interval.  For the interval (25, 40) on a 30
second source the code requests the thumbnail at 25 + (40 - 25) / 2 =
65 / 2, not at the clamped midpoint 25 + (30 - 25) / 2 = 55 / 2. -/
theorem c6_thumbnail_midpoint_unclamped_cex :
    demoExtract.2.2.filterMap thumbTime = [25 + ((40 : Rat) - 25) / 2] ∧
    25 + ((40 : Rat) - 25) / 2 ≠ 25 + ((30 : Rat) - 25) / 2 := by
  refine ⟨rfl, by norm_num⟩

/-- C6, amended.  The thumbnail timestamp requested for each candidate
interval is the midpoint of the raw interval,
start_time + (end_time - start_time) / 2, computed from the unclamped
end_time returned by the inference capability. -/
theorem c6_thumbnail_time_raw_midpoint (caps : Capabilities) (vid : String)
    (raws : List RawHighlight) (i : Nat) (st st' : AppState)
    (clips clips' : List HighlightClip) (calls calls' : List MediaCall)
    (h : extractLoop caps vid i raws st clips calls = .ok (st', clips', calls')) :
    calls'.filterMap thumbTime =
      calls.filterMap thumbTime ++
        raws.map (fun r => r.start_time.getD 0 +
          (r.end_time.getD 0 - r.start_time.getD 0) / 2) := by
  rcases extractLoop_ok_spec caps vid raws i st clips calls st' clips' calls' h
    with ⟨-, hcalls, -, -, -⟩
  subst hcalls
  simp [builtCalls_thumb_times caps vid i raws]

/-- C6 witness: the amended statement evaluated on the concrete demo run. -/
theorem c6_thumbnail_time_raw_midpoint_witness :
    demoExtract.2.2.filterMap thumbTime =
      ([] : List MediaCall).filterMap thumbTime ++
        [demoRaw].map (fun r => r.start_time.getD 0 +
          (r.end_time.getD 0 - r.start_time.getD 0) / 2) :=
  c6_thumbnail_time_raw_midpoint demoCaps "v1" [demoRaw] 0 st0 demoExtract.1
    [] demoExtract.2.1 [] demoExtract.2.2 rfl

/-! ### Claim C2 -/

/-- C2, counterexample.  The claim says every Highlight without a
matching response item receives a synthesized default post, so the plan
has exactly one post per Highlight.  But when the response parses with
fewer items than highlights, the loop simply runs out of items: with one
highlight and a parsed response whose content_plan list is empty, the
resulting plan has zero posts, not one. -/
theorem c2_parsed_short_response_drops_highlights_cex :
    (generate_content_plan "2026-10-01" (fun d => toString d) [hcA]
        (.ok (some []))).1 =
      .ok { video_id := "v1"
            title := "Content Plan for 1 Highlights"
            generated_date := "2026-10-01"
            posts := [] } ∧
    ([] : List ContentPost).length ≠ [hcA].length := by
  refine ⟨rfl, by decide⟩

/-- C2, amended.  Only when the whole response is unparseable does every
Highlight receive a synthesized default post (one per Highlight, in
highlight order, each referencing its Highlight's id); when the response
parses, posts are built positionally from the parsed items and their
number is min(number of items, number of highlights), so highlights
beyond the parsed item list receive no post at all. -/
theorem c2_content_plan_posts_characterization (nowIso : String)
    (d : Nat → String) (h : HighlightClip) (t : List HighlightClip) :
    generate_content_plan nowIso d (h :: t) (.ok none) =
      (.ok { video_id := h.video_id
             title := "Content Plan for " ++ toString (h :: t).length ++
               " Highlights"
             generated_date := nowIso
             posts := fallbackPosts d (h :: t) }, [CapCall.inference]) ∧
    (fallbackPosts d (h :: t)).length = (h :: t).length ∧
    (fallbackPosts d (h :: t)).map (fun p => p.clip_id) =
      (h :: t).map (fun x => x.id) ∧
    ∀ items : List PlanItem,
      (generate_content_plan nowIso d (h :: t) (.ok (some items))).1 =
        .ok { video_id := h.video_id
              title := "Content Plan for " ++ toString (h :: t).length ++
                " Highlights"
              generated_date := nowIso
              posts := parsedPosts d (h :: t) items } ∧
      (parsedPosts d (h :: t) items).length =
        min items.length (h :: t).length :=
  ⟨rfl, fallbackPostsFrom_length d 0 _, fallbackPostsFrom_clip_id d 0 _,
    fun items => ⟨rfl, parsedPostsFrom_length d 0 items (h :: t)⟩⟩

/-! ### Claim C7 -/

set_option maxHeartbeats 2000000 in
/-- C7.  Content-plan generation on an empty highlight list fails fast
with the empty-input error and makes no inference call (the returned
call list is empty); and a pipeline run whose analysis stage yields zero
highlights ends with the Job in ERROR: the status record reads ERROR,
the Job status field reads ERROR, and the status trace is the full
prefix through GENERATING_CONTENT_PLAN followed by ERROR. -/
theorem c7_empty_highlights_fail_fast :
    (∀ (nowIso : String) (d : Nat → String)
        (cap : Except String (Option (List PlanItem))),
      generate_content_plan nowIso d [] cap =
        (.error "No highlights provided for content plan generation", [])) ∧
    ∀ (caps : Capabilities) (vid : String) (st : AppState) (dur : Rat)
      (fr : Int) (v : VideoMetadata),
      caps.metadata = .ok (dur, fr) → caps.analysis = .ok [] →
      dbLookup st.videos_db vid = some v →
      dbLookup (process_video caps vid st).state.processing_status_db vid =
        some ⟨vid, "ERROR"⟩ ∧
      jobStatus (process_video caps vid st).state vid = some "ERROR" ∧
      traceStatuses (process_video caps vid st) =
        ["PROCESSING", "ANALYZING", "EXTRACTING_HIGHLIGHTS",
         "GENERATING_CONTENT_PLAN", "ERROR"] := by
  constructor
  · intro nowIso d cap
    rfl
  · intro caps vid st dur fr v hm ha hv
    simp only [process_video, hm, ha, extractLoop, generate_content_plan]
    refine ⟨failJob_psr _ _ _ _, ?_, ?_⟩
    · have hv1 : dbLookup (psrWrite st vid "PROCESSING").videos_db vid =
          some v := hv
      apply failJob_jobStatus
      exact updateJob_lookup_self (v := v) hv1
    · rw [failJob_traceStatuses]
      rfl

/-- C7 witness: the pipeline part of the claim evaluated on a concrete
run whose analysis stage returns an empty highlight list. -/
theorem c7_empty_highlights_fail_fast_witness :
    dbLookup (process_video capsEmptyAnalysis "v1" st0).state.processing_status_db
        "v1" = some ⟨"v1", "ERROR"⟩ ∧
    jobStatus (process_video capsEmptyAnalysis "v1" st0).state "v1" =
      some "ERROR" ∧
    traceStatuses (process_video capsEmptyAnalysis "v1" st0) =
      ["PROCESSING", "ANALYZING", "EXTRACTING_HIGHLIGHTS",
       "GENERATING_CONTENT_PLAN", "ERROR"] :=
  c7_empty_highlights_fail_fast.2 capsEmptyAnalysis "v1" st0 30 900 vm0
    rfl rfl rfl

/-! ### Claim C8 -/

/-- C8.  A submission whose declared media type is not in the supported
set is rejected with the unsupported-media-type error before anything
happens: the returned state is exactly the input state, so no file is
saved and no registry map gains an entry. -/
theorem c8_unsupported_media_type_rejected (st : AppState)
    (video_id filename title : String) (description : Option String)
    (content_type nowIso : String)
    (h : allowed_types.contains content_type = false) :
    upload_video st video_id filename title description content_type nowIso =
      (.error "Invalid file type. Only MP4, MOV, and AVI files are supported.",
       st) := by
  have h' : content_type ∉ allowed_types := by simpa using h
  simp [upload_video, h']

/-- C8 witness: a submission declaring the media type image/png is
rejected and the registries stay untouched. -/
theorem c8_unsupported_media_type_rejected_witness :
    upload_video st0 "v2" "f.png" "T" none "image/png" "2026-10-01" =
      (.error "Invalid file type. Only MP4, MOV, and AVI files are supported.",
       st0) :=
  c8_unsupported_media_type_rejected st0 "v2" "f.png" "T" none "image/png"
    "2026-10-01" rfl

/-! ### Claim C9 -/

/-- C9.  A successful submission writes only the Job registry: right
after upload_video returns, fetching the Job succeeds, while polling the
processing status returns NotFound because the status record is only
created later, inside the background task. -/
theorem c9_status_record_missing_after_upload (st : AppState)
    (vid filename title : String) (description : Option String)
    (ct nowIso : String) (vm : VideoMetadata) (st' : AppState)
    (hps : dbLookup st.processing_status_db vid = none)
    (hup : upload_video st vid filename title description ct nowIso =
      (.ok vm, st')) :
    get_video st' vid = .ok vm ∧
    get_processing_status st' vid = .error "Video not found" := by
  by_cases hct : allowed_types.contains ct
  · rw [upload_video, if_pos hct] at hup
    have h1 := congrArg Prod.fst hup
    have h2 := congrArg Prod.snd hup
    simp only at h1 h2
    injection h1 with h1
    subst h1
    subst h2
    constructor
    · simp [get_video, addFileSt, dbLookup_dbInsert_self]
    · simp [get_processing_status, addFileSt, hps]
  · rw [upload_video, if_neg hct] at hup
    exact absurd (congrArg Prod.fst hup) (by simp)

/-- C9 witness: a concrete upload into the empty state. -/
theorem c9_status_record_missing_after_upload_witness :
    get_video upDemo.2 "v9" = .ok upVm ∧
    get_processing_status upDemo.2 "v9" = .error "Video not found" :=
  c9_status_record_missing_after_upload stEmpty "v9" "clipsource.mp4" "T"
    none "video/mp4" "2026-10-01T00:00:00" upVm upDemo.2 rfl rfl

/-! ### Claim C5 -/

/-- The five status sequences a pipeline run can write: each proper
prefix of the stage order closed by ERROR, or the complete stage order
ending in COMPLETED. -/
def allowedStatusTraces : List (List String) :=
  [["PROCESSING", "ERROR"],
   ["PROCESSING", "ANALYZING", "ERROR"],
   ["PROCESSING", "ANALYZING", "EXTRACTING_HIGHLIGHTS", "ERROR"],
   ["PROCESSING", "ANALYZING", "EXTRACTING_HIGHLIGHTS",
    "GENERATING_CONTENT_PLAN", "ERROR"],
   ["PROCESSING", "ANALYZING", "EXTRACTING_HIGHLIGHTS",
    "GENERATING_CONTENT_PLAN", "COMPLETED"]]

/-- C5.  Every run of the pipeline writes a status sequence that follows
the stage order PROCESSING, ANALYZING, EXTRACTING_HIGHLIGHTS,
GENERATING_CONTENT_PLAN, COMPLETED: the sequence is either the full
order or a prefix of it closed by a single final ERROR, so no stage tag
is ever written after ERROR or COMPLETED; and each of the five
sequences is realised by some run, so ERROR is reachable from every
non-terminal stage. -/
theorem c5_status_trace_follows_stage_order :
    (∀ (caps : Capabilities) (vid : String) (st : AppState),
      traceStatuses (process_video caps vid st) ∈ allowedStatusTraces) ∧
    traceStatuses (process_video capsMetaFail "v1" st0) =
      ["PROCESSING", "ERROR"] ∧
    traceStatuses (process_video capsAnalysisFail "v1" st0) =
      ["PROCESSING", "ANALYZING", "ERROR"] ∧
    traceStatuses (process_video capsClipFail "v1" st0) =
      ["PROCESSING", "ANALYZING", "EXTRACTING_HIGHLIGHTS", "ERROR"] ∧
    traceStatuses (process_video capsPlanFail "v1" st0) =
      ["PROCESSING", "ANALYZING", "EXTRACTING_HIGHLIGHTS",
       "GENERATING_CONTENT_PLAN", "ERROR"] ∧
    traceStatuses (process_video demoCaps "v1" st0) =
      ["PROCESSING", "ANALYZING", "EXTRACTING_HIGHLIGHTS",
       "GENERATING_CONTENT_PLAN", "COMPLETED"] := by
  refine ⟨?_, rfl, rfl, rfl, rfl, rfl⟩
  intro caps vid st
  simp only [process_video]
  split
  · simp [failJob, traceStatuses, obs, allowedStatusTraces]
  · split
    · simp [failJob, traceStatuses, obs, allowedStatusTraces]
    · split
      · simp [failJob, traceStatuses, obs, allowedStatusTraces]
      · split
        · simp [failJob, traceStatuses, obs, allowedStatusTraces]
        · simp [traceStatuses, obs, allowedStatusTraces]

/-! ### Claim C3 -/

def intermediateStages : List String :=
  ["ANALYZING", "EXTRACTING_HIGHLIGHTS", "GENERATING_CONTENT_PLAN"]

/-- The Job status field that is actually visible when a given stage tag
is written to the status-record registry: during the three intermediate
stages the Job field still reads PROCESSING. -/
def expectedJobStatus (s : String) : String :=
  if s ∈ intermediateStages then "PROCESSING" else s

/-- C3, counterexample.  The two status stores diverge: the demo run
writes the stage tag ANALYZING to the status-record registry at a moment
when the Job's own status field still reads PROCESSING. -/
theorem c3_status_stores_diverge_cex :
    ("ANALYZING", some "PROCESSING") ∈ demoRun.trace ∧
    "ANALYZING" ≠ "PROCESSING" := by
  refine ⟨by decide, by decide⟩

/-- C3, amended.  At every write of a stage tag to the status-record
registry, the Job status field visible at that instant is PROCESSING
when the tag is one of the intermediate stages ANALYZING,
EXTRACTING_HIGHLIGHTS, GENERATING_CONTENT_PLAN (so the two stores
diverge there), and equals the written tag when it is PROCESSING,
COMPLETED or ERROR (the only tags the Job field ever carries). -/
theorem c3_job_status_vs_record_characterization (caps : Capabilities)
    (vid : String) (st : AppState) (v : VideoMetadata)
    (hv : dbLookup st.videos_db vid = some v)
    (hst : v.processing_status = "PROCESSING") :
    ∀ e ∈ (process_video caps vid st).trace,
      e.2 = some (expectedJobStatus e.1) := by
  have hj0 : jobStatus st vid = some "PROCESSING" := by
    simp [jobStatus, hv, hst]
  have hv1 : dbLookup (psrWrite st vid "PROCESSING").videos_db vid =
      some v := hv
  simp only [process_video]
  split
  · intro x hx
    rw [failJob_trace hv1] at hx
    simp only [obs, List.mem_append, List.mem_cons, List.mem_singleton,
      List.not_mem_nil, or_false] at hx
    rcases hx with rfl | rfl
    · simpa [expectedJobStatus, intermediateStages] using hj0
    · simp [expectedJobStatus, intermediateStages]
  · rename_i dur fr heqm
    have hv2 : dbLookup (updateJob (psrWrite st vid "PROCESSING") vid
        (jobSetMeta dur fr)).videos_db vid = some (jobSetMeta dur fr v) :=
      updateJob_lookup_self hv1
    have hj2 : jobStatus (updateJob (psrWrite st vid "PROCESSING") vid
        (jobSetMeta dur fr)) vid = some "PROCESSING" := by
      simp [jobStatus, hv2, jobSetMeta]
    have hv3 : dbLookup (psrWrite (updateJob (psrWrite st vid "PROCESSING")
        vid (jobSetMeta dur fr)) vid "ANALYZING").videos_db vid =
        some (jobSetMeta dur fr v) := hv2
    split
    · intro x hx
      rw [failJob_trace hv3] at hx
      simp only [obs, List.mem_append, List.mem_cons, List.mem_singleton,
        List.not_mem_nil, or_false] at hx
      rcases hx with (rfl | rfl) | rfl
      · simpa [expectedJobStatus, intermediateStages] using hj0
      · simpa [expectedJobStatus, intermediateStages] using hj2
      · simp [expectedJobStatus, intermediateStages]
    · rename_i raws heqa
      split
      · rename_i e stp heql
        have hpres := extractLoop_err_spec caps vid raws 0 _ [] [] e stp heql
        have hvp : dbLookup stp.videos_db vid = some (jobSetMeta dur fr v) := by
          rw [hpres.1]
          exact hv2
        intro x hx
        rw [failJob_trace hvp] at hx
        simp only [obs, List.mem_append, List.mem_cons, List.mem_singleton,
          List.not_mem_nil, or_false] at hx
        rcases hx with ((rfl | rfl) | rfl) | rfl
        · simpa [expectedJobStatus, intermediateStages] using hj0
        · simpa [expectedJobStatus, intermediateStages] using hj2
        · simpa [jobStatus_psrWrite, expectedJobStatus, intermediateStages]
            using hj2
        · simp [expectedJobStatus, intermediateStages]
      · rename_i st5 clips calls heql
        have hlok := extractLoop_ok_spec caps vid raws 0 _ [] [] st5 clips
          calls heql
        have hv5 : dbLookup st5.videos_db vid = some (jobSetMeta dur fr v) := by
          rw [hlok.2.2.1]
          exact hv2
        have hj5 : jobStatus st5 vid = some "PROCESSING" := by
          simp [jobStatus, hv5, jobSetMeta]
        have hv6 : dbLookup (psrWrite st5 vid
            "GENERATING_CONTENT_PLAN").videos_db vid =
            some (jobSetMeta dur fr v) := hv5
        split
        · intro x hx
          rw [failJob_trace hv6] at hx
          simp only [obs, List.mem_append, List.mem_cons, List.mem_singleton,
            List.not_mem_nil, or_false] at hx
          rcases hx with (((rfl | rfl) | rfl) | rfl) | rfl
          · simpa [expectedJobStatus, intermediateStages] using hj0
          · simpa [expectedJobStatus, intermediateStages] using hj2
          · simpa [jobStatus_psrWrite, expectedJobStatus, intermediateStages]
              using hj2
          · simpa [expectedJobStatus, intermediateStages] using hj5
          · simp [expectedJobStatus, intermediateStages]
        · rename_i plan heqp
          intro x hx
          simp only [obs, List.mem_append, List.mem_cons, List.mem_singleton,
            List.not_mem_nil, or_false] at hx
          rcases hx with (((rfl | rfl) | rfl) | rfl) | rfl
          · simpa [expectedJobStatus, intermediateStages] using hj0
          · simpa [expectedJobStatus, intermediateStages] using hj2
          · simpa [jobStatus_psrWrite, expectedJobStatus, intermediateStages]
              using hj2
          · simpa [expectedJobStatus, intermediateStages] using hj5
          · simp [updateJob, psrWrite, jobStatus, dbLookup_dbInsert_self,
              hv5, jobSetDone, expectedJobStatus, intermediateStages]

/-- C3 witness: the amended characterization applied to the demo run at
the ANALYZING write, where the record reads ANALYZING while the Job
field reads PROCESSING. -/
theorem c3_job_status_vs_record_characterization_witness :
    (("ANALYZING", some "PROCESSING") : String × Option String).2 =
      some (expectedJobStatus
        (("ANALYZING", some "PROCESSING") : String × Option String).1) :=
  c3_job_status_vs_record_characterization demoCaps "v1" st0 vm0 rfl rfl
    ("ANALYZING", some "PROCESSING") (by decide)

/-! ### Claim C4 -/

/-- C4, counterexample.  Deleting the same Job twice is not idempotent:
the first delete succeeds, but the second raises NotFound (HTTPException
404 in the source) instead of being a harmless no-op. -/
theorem c4_second_delete_not_found_cex :
    delete_video stFull "v1" = .ok stFullDel ∧
    delete_video stFullDel "v1" = .error "Video not found" := by
  refine ⟨rfl, rfl⟩

/-- C4, amended.  Deleting a Job removes every Highlight whose owning
Job identifier matches, its ContentPlan and its ProcessingStatusRecord;
afterwards Fetch Highlights and Fetch ContentPlan return NotFound.  The
deletion never raises because of missing artifact files: with any
filesystem contents, even with every artifact already removed, the
delete still succeeds.  Deleting twice, however, yields NotFound on the
second call (see the counterexample), because the Job entry is gone. -/
theorem c4_delete_cascades_and_missing_files_ok (st : AppState)
    (vid : String) (st' : AppState) (fs : List String)
    (hkeys : ∀ p ∈ st.highlights_db, p.1 = p.2.id)
    (hdel : delete_video st vid = .ok st') :
    get_highlights st' vid = .error "Video not found" ∧
    get_content_plan st' vid = .error "Video not found" ∧
    dbLookup st'.processing_status_db vid = none ∧
    ownedEntries st'.highlights_db vid = [] ∧
    (delete_video { st with files := fs } vid).toOption ≠ none := by
  cases hv : dbLookup st.videos_db vid with
  | none => simp [delete_video, hv] at hdel
  | some video =>
    simp only [delete_video, hv, Except.ok.injEq] at hdel
    subst hdel
    refine ⟨?_, ?_, ?_, ?_, ?_⟩
    · split <;> split <;> simp [get_highlights, dbLookup_dbErase_self]
    · split <;> split <;> simp [get_content_plan, dbLookup_dbErase_self]
    · split <;> split <;>
        first
        | (rename_i hg; simpa using hg)
        | simp [dbLookup_dbErase_self]
    · have hrem := deleteHighlightsLoop_removes vid
        ((ownedEntries st.highlights_db vid).map Prod.snd)
        { st with files := removeFileIfExists st.files video.upload_path }
        (by
          intro p hp hpv
          refine ⟨?_, hkeys p hp⟩
          exact List.mem_map_of_mem Prod.snd (mem_ownedEntries.2 ⟨hp, hpv⟩))
      split <;> split <;> exact hrem
    · simp [delete_video, hv, Except.toOption]

/-- C4 witness: the amended statement evaluated on a populated concrete
state, with the empty filesystem standing in for externally removed
artifact files. -/
theorem c4_delete_cascades_and_missing_files_ok_witness :
    get_highlights stFullDel "v1" = .error "Video not found" ∧
    get_content_plan stFullDel "v1" = .error "Video not found" ∧
    dbLookup stFullDel.processing_status_db "v1" = none ∧
    ownedEntries stFullDel.highlights_db "v1" = [] ∧
    (delete_video { stFull with files := [] } "v1").toOption ≠ none :=
  c4_delete_cascades_and_missing_files_ok stFull "v1" stFullDel []
    (by decide) rfl

/-! ### Claim C10 -/

/-- C10.  Deleting a Job touches only entities belonging to that Job:
for any other Job identifier, the Job entry, the ContentPlan entry, the
ProcessingStatusRecord and the set of owned Highlight entries are all
unchanged by the delete (under the registry invariants that each
highlight entry is keyed by its value's id and keys are unique). -/
theorem c10_delete_frame_condition (st : AppState) (vid vid' : String)
    (st' : AppState) (hne : vid' ≠ vid)
    (hkeys : ∀ p ∈ st.highlights_db, p.1 = p.2.id)
    (hnodup : (st.highlights_db.map Prod.fst).Nodup)
    (hdel : delete_video st vid = .ok st') :
    dbLookup st'.videos_db vid' = dbLookup st.videos_db vid' ∧
    dbLookup st'.content_plans_db vid' = dbLookup st.content_plans_db vid' ∧
    dbLookup st'.processing_status_db vid' =
      dbLookup st.processing_status_db vid' ∧
    ownedEntries st'.highlights_db vid' =
      ownedEntries st.highlights_db vid' := by
  cases hv : dbLookup st.videos_db vid with
  | none => simp [delete_video, hv] at hdel
  | some video =>
    simp only [delete_video, hv, Except.ok.injEq] at hdel
    subst hdel
    have hldbs := deleteHighlightsLoop_dbs
      ((ownedEntries st.highlights_db vid).map Prod.snd)
      { st with files := removeFileIfExists st.files video.upload_path }
    have hloopinv : ∀ h ∈ (ownedEntries st.highlights_db vid).map Prod.snd,
        ∀ p ∈ st.highlights_db, p.1 = h.id → p.2.video_id = vid := by
      intro h hh p hp hpk
      rcases List.mem_map.1 hh with ⟨q, hq, rfl⟩
      rcases mem_ownedEntries.1 hq with ⟨hqm, hqv⟩
      have hqk := hkeys q hqm
      have hpq : p = q := nodup_keys_inj hnodup hp hqm (by rw [hpk, ← hqk])
      rw [hpq]
      exact hqv
    refine ⟨?_, ?_, ?_, ?_⟩
    · split <;> split <;>
        simp [dbLookup_dbErase_ne _ _ _ hne, hldbs.1]
    · split <;> split <;>
        simp [dbLookup_dbErase_ne _ _ _ hne, hldbs.2.1]
    · split <;> split <;>
        simp [dbLookup_dbErase_ne _ _ _ hne, hldbs.2.2]
    · have hfr := deleteHighlightsLoop_frame vid vid' hne
        ((ownedEntries st.highlights_db vid).map Prod.snd)
        { st with files := removeFileIfExists st.files video.upload_path }
        hloopinv
      split <;> split <;> exact hfr

/-- C10 witness: deleting Job v1 from a populated state leaves every
registry entry of the unrelated identifier v2 untouched. -/
theorem c10_delete_frame_condition_witness :
    dbLookup stFullDel.videos_db "v2" = dbLookup stFull.videos_db "v2" ∧
    dbLookup stFullDel.content_plans_db "v2" =
      dbLookup stFull.content_plans_db "v2" ∧
    dbLookup stFullDel.processing_status_db "v2" =
      dbLookup stFull.processing_status_db "v2" ∧
    ownedEntries stFullDel.highlights_db "v2" =
      ownedEntries stFull.highlights_db "v2" :=
  c10_delete_frame_condition stFull "v1" "v2" stFullDel (by decide)
    (by decide) (by decide) rfl
